import Mathlib

/-!
Shallow embedding of the B+Tree from `src/src/storage/index/b_plus_tree.cpp`
(template class `bustub::BPlusTree`, instantiated with integer keys via
`GenericKey::SetFromInteger` and integer record ids, as the repository's
test drivers `InsertFromFile` / `RemoveFromFile` / `BatchOpsFromFile` do).

Modelling conventions:
* keys and values are `Int` (the comparator is the three-way integer order);
* page ids are `Int`, with `INVALID_PAGE_ID = -1`; the buffer pool is an
  association list from page id to page content plus an allocation counter;
* a node page's key/value arrays are backing lists that are only ever grown
  by writes, with the logical entry count kept in a separate `size` field,
  exactly as on a disk page: `SetSize` does not clear slots beyond the new
  size, so stale data stays readable (the source relies on reads of such
  slots after merges);
* every `while` descent loop is translated with an explicit fuel argument
  (`none` = the loop did not reach a leaf within the fuel); the top-level
  operations pass `pages.length + 1`, enough fuel for any acyclic descent;
* the `for` loops over slot ranges are translated by folds over
  `List.range`, mutating the backing list exactly in the source's order.
-/

namespace BT

/-- `INVALID_PAGE_ID` sentinel (bustub uses `-1`). -/
def INVALID_PAGE_ID : Int := -1

/-- The three-way key comparator (`GenericComparator` on integer keys):
returns `-1` / `0` / `1`. -/
def comparator (a b : Int) : Int :=
  if a < b then -1 else if a = b then 0 else 1

/-- Read slot `i` of a backing array (`KeyAt` / `ValueAt`); out-of-range or
negative reads return the uninitialised-slot value `0`. -/
def readAt (a : List Int) (i : Int) : Int :=
  a.getD i.toNat 0

/-- Write slot `i` of a backing array (`SetKeyAt` / `SetValueAt`), growing
the backing list with zero padding when the slot was never written. -/
def writeAt (a : List Int) (i : Nat) (x : Int) : List Int :=
  if i < a.length then a.set i x
  else (a ++ List.replicate (i - a.length) 0) ++ [x]

/-- `for (j = hi; j > lo; j--) a[j] = a[j-1];` — the shift-up loop used when
inserting an entry into the middle of a node. -/
def shiftRightLoop (a : List Int) (lo hi : Int) : List Int :=
  (List.range (hi - lo).toNat).foldl
    (fun acc t => writeAt acc (hi - t).toNat (readAt acc (hi - t - 1))) a

/-- `for (j = lo; j < hi; j++) a[j] = a[j+1];` — the shift-down loop used
when erasing an entry from a node. -/
def shiftLeftLoop (a : List Int) (lo hi : Int) : List Int :=
  (List.range (hi - lo).toNat).foldl
    (fun acc t => writeAt acc (lo + t).toNat (readAt acc (lo + t + 1))) a

/-- `for (j = 0; j < n; j++) dst[off + j] = src[j];` — the merge copy loop. -/
def blitLoop (dst src : List Int) (off n : Int) : List Int :=
  (List.range n.toNat).foldl
    (fun acc t => writeAt acc (off + t).toNat (readAt src t)) dst

/-- `for (j = srcLo; j < srcHi; j++) dst[j - srcLo] = src[j];` — the split
copy loop (upper half moves to a fresh node). -/
def blitFromLoop (dst src : List Int) (srcLo n : Int) : List Int :=
  (List.range n.toNat).foldl
    (fun acc t => writeAt acc t (readAt src (srcLo + t))) dst

/-- `int pos = size; for (j = 0; j < size; j++) if (cmp(key[j], k) == 1) { pos = j; break; }` -/
def findPosLoop (keys : List Int) (k size : Int) : Int :=
  match (List.range size.toNat).find?
      (fun j => comparator (readAt keys j) k == 1) with
  | some j => (j : Int)
  | none => size

/-- A leaf page: sorted `(key, value)` array plus `next_page_id`
(`BPlusTreeLeafPage`). -/
structure LeafPage where
  keys : List Int
  vals : List Int
  size : Int
  max_size : Int
  next_page_id : Int
deriving Repr, DecidableEq

/-- An internal page: `(key, child page id)` array, slot 0's key being a
routing placeholder (`BPlusTreeInternalPage`). -/
structure InternalPage where
  keys : List Int
  vals : List Int
  size : Int
  max_size : Int
deriving Repr, DecidableEq

/-- A node page with its kind tag (`IndexPageType`). -/
inductive Page where
  | leaf (p : LeafPage)
  | internal (p : InternalPage)
deriving Repr, DecidableEq

/-- Modelled from the spec: the node-accessor layer
(`b_plus_tree_leaf_page.cpp`) is not under `src/`; per spec §4.3 `Init`
gives an empty leaf with `next_page_id = INVALID_PAGE_ID`. -/
def leafInit (maxSize : Int) : LeafPage :=
  { keys := [], vals := [], size := 0, max_size := maxSize
    next_page_id := INVALID_PAGE_ID }

/-- Modelled from the spec: `Init` for internal pages (empty, given
capacity); the accessor source is not under `src/`. -/
def internalInit (maxSize : Int) : InternalPage :=
  { keys := [], vals := [], size := 0, max_size := maxSize }

/-- Modelled from the spec: `GetMinSize` of the node-accessor layer is not
under `src/`; spec §4.5 fixes `leaf_min = ⌈leaf_max/2⌉`. -/
def LeafPage.minSize (p : LeafPage) : Int := (p.max_size + 1) / 2

/-- Modelled from the spec: `internal_min = ⌈internal_max/2⌉` (spec §4.5). -/
def InternalPage.minSize (p : InternalPage) : Int := (p.max_size + 1) / 2

/-- The buffer pool's page table, as an association list. -/
def Store := List (Int × Page)
deriving instance Repr, DecidableEq for Store

/-- Fetch a page (`FetchPageRead` / `FetchPageWrite` + `As`). -/
def Store.get? : Store → Int → Option Page
  | [], _ => none
  | (q, pg) :: rest, pid => if q = pid then some pg else Store.get? rest pid

/-- Write back a page under a write guard (or materialise a new one). -/
def Store.set : Store → Int → Page → Store
  | [], pid, pg => [(pid, pg)]
  | (q, r) :: rest, pid, pg =>
      if q = pid then (pid, pg) :: rest else (q, r) :: Store.set rest pid pg

/-- `DeletePage`. -/
def Store.del : Store → Int → Store
  | [], _ => []
  | (q, r) :: rest, pid => if q = pid then rest else (q, r) :: Store.del rest pid

/-- The whole index state: header (`root_page_id_`), buffer pool pages,
allocation counter, and the two fan-out limits the tree is constructed
with. -/
structure Tree where
  pages : Store
  next_pid : Int
  root_page_id : Int
  leaf_max_size : Int
  internal_max_size : Int
deriving Repr, DecidableEq

/-- The constructor `BPlusTree(...)`: stores `INVALID_PAGE_ID` in the
header. -/
def newTree (leafMax internalMax : Int) : Tree :=
  { pages := [], next_pid := 1, root_page_id := INVALID_PAGE_ID
    leaf_max_size := leafMax, internal_max_size := internalMax }

/-- `IsEmpty`: the header's root id is the sentinel. -/
def IsEmpty (t : Tree) : Bool := t.root_page_id = INVALID_PAGE_ID

/-- `GetRootPageId`. -/
def GetRootPageId (t : Tree) : Int := t.root_page_id

/-- `NewPageGuarded`: allocate a fresh page id (the page is blank until the
caller's `Init`). -/
def allocPage (t : Tree) : Tree × Int :=
  ({ t with pages := t.pages.set t.next_pid (.leaf (leafInit 0))
            next_pid := t.next_pid + 1 }, t.next_pid)

/-- Store one page back. -/
def Tree.setPage (t : Tree) (pid : Int) (pg : Page) : Tree :=
  { t with pages := t.pages.set pid pg }

/-- Drop one page. -/
def Tree.delPage (t : Tree) (pid : Int) : Tree :=
  { t with pages := t.pages.del pid }

/-- The `while (l < r)` loop common to both `BinaryFind` overloads:
`mid = (l + r + 1) >> 1`; move `l` up to `mid` when `key[mid] ≤ k`,
else move `r` down to `mid - 1`.  Fuel-indexed; with fuel `> r - l` the
loop always finishes. -/
def bfLoop (keys : List Int) (k : Int) : Nat → Int → Int → Int
  | 0, _, r => r
  | fuel + 1, l, r =>
    if l < r then
      let mid := (l + r + 1) / 2
      if comparator (readAt keys mid) k ≠ 1 then bfLoop keys k fuel mid r
      else bfLoop keys k fuel l (mid - 1)
    else r

/-- `BinaryFind(const LeafPage*, key)`: start with `l = 0`, `r = size - 1`;
afterwards map a still-too-large `r` to `-1`. -/
def BinaryFindLeaf (p : LeafPage) (k : Int) : Int :=
  let r := bfLoop p.keys k p.size.toNat 0 (p.size - 1)
  if 0 ≤ r ∧ comparator (readAt p.keys r) k = 1 then -1 else r

/-- `BinaryFind(const InternalPage*, key)`: start with `l = 1`,
`r = size - 1`; afterwards map `-1` or a too-large `r` to slot `0`. -/
def BinaryFindInternal (p : InternalPage) (k : Int) : Int :=
  let r := bfLoop p.keys k p.size.toNat 1 (p.size - 1)
  if r = -1 ∨ comparator (readAt p.keys r) k = 1 then 0 else r

/-- The read-guarded root-to-leaf descent of `GetValue`
(`while (!tmp_page->IsLeafPage())` routing through `BinaryFind`). -/
def findLeafG (t : Tree) (k : Int) : Nat → Int → Option (Int × LeafPage)
  | 0, _ => none
  | fuel + 1, pid =>
    match t.pages.get? pid with
    | some (.leaf lp) => some (pid, lp)
    | some (.internal ip) =>
        findLeafG t k fuel (readAt ip.vals (BinaryFindInternal ip k))
    | none => none

/-- `GetValue`: `none` means the descent got stuck (lost page / cyclic
state, which in C++ would be undefined behaviour); `some none` means the
key is absent; `some (some v)` means the key was found with value `v`. -/
def GetValue (t : Tree) (k : Int) : Option (Option Int) :=
  if t.root_page_id = INVALID_PAGE_ID then some none
  else
    match findLeafG t k (t.pages.length + 1) t.root_page_id with
    | none => none
    | some (_, lp) =>
        let slot := BinaryFindLeaf lp k
        if slot ≠ -1 ∧ comparator (readAt lp.keys slot) k = 0 then
          some (some (readAt lp.vals slot))
        else some none

/-- Insert phase 1: the read-guarded descent that records the page id of
every visited node into the `road` vector (root first, leaf last); returns
the road, the leaf's id and the leaf. -/
def buildRoad (t : Tree) (k : Int) : Nat → Int → Option (List Int × Int × LeafPage)
  | 0, _ => none
  | fuel + 1, pid =>
    match t.pages.get? pid with
    | some (.leaf lp) => some ([pid], pid, lp)
    | some (.internal ip) =>
        match buildRoad t k fuel (readAt ip.vals (BinaryFindInternal ip k)) with
        | none => none
        | some (road, q, lp) => some (pid :: road, q, lp)
    | none => none

/-- The leaf-level entry insertion of Insert phase 2: scan for the first
slot whose key is strictly greater, `IncreaseSize(1)`, shift up, write the
new `(key, value)` pair. -/
def leafInsertEntry (lp : LeafPage) (k v : Int) : LeafPage :=
  let pos := findPosLoop lp.keys k lp.size
  let size' := lp.size + 1
  { lp with
    keys := writeAt (shiftRightLoop lp.keys pos (size' - 1)) pos.toNat k
    vals := writeAt (shiftRightLoop lp.vals pos (size' - 1)) pos.toNat v
    size := size' }

/-- The internal-level entry insertion of Insert phase 2 for the carry
`(new_key, new_page_id)`.  The position scan starts at slot 0 — the
routing placeholder participates in the comparison, exactly as in the
source. -/
def internalInsertEntry (ip : InternalPage) (k : Int) (pid : Int) : InternalPage :=
  let pos := findPosLoop ip.keys k ip.size
  let size' := ip.size + 1
  { ip with
    keys := writeAt (shiftRightLoop ip.keys pos (size' - 1)) pos.toNat k
    vals := writeAt (shiftRightLoop ip.vals pos (size' - 1)) pos.toNat pid
    size := size' }

/-- The leaf split of Insert phase 2: allocate a right leaf, splice it into
the leaf list, move slots `[size/2, size)` over, shrink the old leaf to
`size/2`; returns the new state and the carry `(new_key, new_page_id)`
where `new_key` is the new leaf's first key. -/
def splitLeaf (t : Tree) (pid : Int) (lp : LeafPage) : Tree × Int × Int :=
  let (ta, newId) := allocPage t
  let np0 := leafInit t.leaf_max_size
  let np1 : LeafPage := { np0 with next_page_id := lp.next_page_id }
  let lpA : LeafPage := { lp with next_page_id := newId }
  let half : Int := lpA.size / 2
  let n : Int := lpA.size - half
  let np2 := { np1 with
    size := n
    keys := blitFromLoop np1.keys lpA.keys half n
    vals := blitFromLoop np1.vals lpA.vals half n }
  let lpB := { lpA with size := half }
  let tb := (ta.setPage pid (.leaf lpB)).setPage newId (.leaf np2)
  (tb, readAt np2.keys 0, newId)

/-- The internal split of Insert phase 2 (same pivot `size/2`). -/
def splitInternal (t : Tree) (pid : Int) (ip : InternalPage) : Tree × Int × Int :=
  let (ta, newId) := allocPage t
  let np0 := internalInit t.internal_max_size
  let half := ip.size / 2
  let n := ip.size - half
  let np2 := { np0 with
    size := n
    keys := blitFromLoop np0.keys ip.keys half n
    vals := blitFromLoop np0.vals ip.vals half n }
  let ipB := { ip with size := half }
  let tb := (ta.setPage pid (.internal ipB)).setPage newId (.internal np2)
  (tb, readAt np2.keys 0, newId)

/-- The root split: allocate a new internal root with exactly two slots,
`(k0, old root id)` and `(carry key, carry id)`, where `k0` is the first
key of the (already shrunk) old root, and swing the header to it. -/
def rootSplit (t : Tree) (oldPid : Int) (k0 nk np : Int) : Tree :=
  let (ta, newId) := allocPage t
  let rp0 := internalInit t.internal_max_size
  let rp := { rp0 with
    size := 2
    keys := writeAt (writeAt rp0.keys 0 k0) 1 nk
    vals := writeAt (writeAt rp0.vals 0 oldPid) 1 np }
  { ta.setPage newId (.internal rp) with root_page_id := newId }

/-- Insert phase 2 above the leaf: walk the recorded road bottom-up
(`ancestors` is the road without the leaf, deepest first), inserting the
carry at each internal level, splitting while over-full, and building a
new root when the carry passes the old root. -/
def insertInternalUp (t : Tree) : List Int → Int → Int → Option Tree
  | [], _, _ => some t
  | pid :: rest, nk, np =>
    match t.pages.get? pid with
    | some (.internal ip) =>
        let ip1 := internalInsertEntry ip nk np
        let t1 := t.setPage pid (.internal ip1)
        if ip1.size ≤ ip1.max_size then some t1
        else
          let (t2, nk', np') := splitInternal t1 pid ip1
          match rest with
          | [] => some (rootSplit t2 pid (readAt ip1.keys 0) nk' np')
          | _ :: _ => insertInternalUp t2 rest nk' np'
    | _ => none

/-- Insert phase 2, starting at the leaf recorded last on the road. -/
def insertPhase2 (t : Tree) (road : List Int) (k v : Int) : Option Tree :=
  match road.reverse with
  | [] => some t
  | leafPid :: ancestors =>
    match t.pages.get? leafPid with
    | some (.leaf lp) =>
        let lp1 := leafInsertEntry lp k v
        let t1 := t.setPage leafPid (.leaf lp1)
        if lp1.size ≤ lp1.max_size then some t1
        else
          let (t2, nk, np) := splitLeaf t1 leafPid lp1
          match ancestors with
          | [] => some (rootSplit t2 leafPid (readAt lp1.keys 0) nk np)
          | _ :: _ => insertInternalUp t2 ancestors nk np
    | _ => none

/-- `Insert(key, value)`: bootstrap an empty root, descend recording the
road, reject a duplicate (returning the state untouched), then run the
bottom-up insertion.  `none` = stuck descent (C++ undefined behaviour). -/
def Insert (t : Tree) (k v : Int) : Option (Tree × Bool) :=
  let t0 :=
    if t.root_page_id = INVALID_PAGE_ID then
      let (ta, pid) := allocPage t
      { ta.setPage pid (.leaf (leafInit t.leaf_max_size)) with root_page_id := pid }
    else t
  match buildRoad t0 k (t0.pages.length + 1) t0.root_page_id with
  | none => none
  | some (road, _, lp) =>
      let slot := BinaryFindLeaf lp k
      if slot ≠ -1 ∧ comparator (readAt lp.keys slot) k = 0 then some (t0, false)
      else
        match insertPhase2 t0 road k v with
        | none => none
        | some t' => some (t', true)

/-- Run a sequence of insertions (the `InsertFromFile` driver). -/
def insertList (t : Tree) : List (Int × Int) → Option Tree
  | [] => some t
  | (k, v) :: rest =>
      match Insert t k v with
      | none => none
      | some (t', _) => insertList t' rest

/-- Remove phase 1: the descent that records `(pid, slot)` pairs — at each
internal node the routing slot taken, root first — and returns the leaf's
id and content.  The leaf's own pair (its key slot) is appended by the
caller after the presence check, matching the source's
`road.back().second = slot_num` choreography. -/
def buildRoadR (t : Tree) (k : Int) : Nat → Int → Option (List (Int × Int) × Int × LeafPage)
  | 0, _ => none
  | fuel + 1, pid =>
    match t.pages.get? pid with
    | some (.leaf lp) => some ([], pid, lp)
    | some (.internal ip) =>
        let slot := BinaryFindInternal ip k
        match buildRoadR t k fuel (readAt ip.vals slot) with
        | none => none
        | some (rest, q, lp) => some ((pid, slot) :: rest, q, lp)
    | none => none

/-- Erase the entry at `slot` of a leaf: `IncreaseSize(-1)` then shift the
tail down. -/
def leafEraseAt (lp : LeafPage) (slot : Int) : LeafPage :=
  let size' := lp.size - 1
  { lp with
    keys := shiftLeftLoop lp.keys slot size'
    vals := shiftLeftLoop lp.vals slot size'
    size := size' }

/-- Erase the entry at `slot` of an internal node. -/
def internalEraseAt (ip : InternalPage) (slot : Int) : InternalPage :=
  let size' := ip.size - 1
  { ip with
    keys := shiftLeftLoop ip.keys slot size'
    vals := shiftLeftLoop ip.vals slot size'
    size := size' }

/-- The leaf-level merge write of Remove: the source copies the leaf's
entries into the sibling at offset `leaf->GetSize()` (not at the sibling's
size) and then grows the sibling's size by that amount. -/
def mergeLeafInto (sib lp : LeafPage) : LeafPage :=
  { sib with
    keys := blitLoop sib.keys lp.keys lp.size lp.size
    vals := blitLoop sib.vals lp.vals lp.size lp.size
    size := sib.size + lp.size }

/-- The internal-level merge write of Remove: append
`(parent key at pos-1, node's child 0)` at the sibling's end, grow by one,
then copy all of the node's `size` slots — including slot 0 again — at
offset `sibling size + 1`, and grow by `size`. -/
def mergeInternalInto (sib node : InternalPage) (sepKey : Int) : InternalPage :=
  let s1 : InternalPage := { sib with
    keys := writeAt sib.keys sib.size.toNat sepKey
    vals := writeAt sib.vals sib.size.toNat (readAt node.vals 0)
    size := sib.size + 1 }
  { s1 with
    keys := blitLoop s1.keys node.keys s1.size node.size
    vals := blitLoop s1.vals node.vals s1.size node.size
    size := s1.size + node.size }

/-- Remove phase 2 for the internal levels: `rev` is the rest of the road
(deepest ancestor first, root last); each call is one `for` iteration of
the source's bottom-up loop at an internal node.  Exits: in-place enough
(`some`), root handling (`some`), merge into left sibling and `continue`
upward (recursive call), redistribute (`some`), or — when the node is the
leftmost child, `pos = 0` — fall through to the next iteration without
touching any sibling (recursive call). -/
def removeInternalUp (t : Tree) : List (Int × Int) → Option Tree
  | [] => some t
  | (pid, slot) :: rest =>
    match t.pages.get? pid with
    | some (.internal ip) =>
        let ip1 := internalEraseAt ip slot
        let t1 := t.setPage pid (.internal ip1)
        if ip1.size ≥ ip1.minSize then some t1
        else
          match rest with
          | [] =>
              if ip1.size = 1 then
                some { t1.delPage pid with root_page_id := readAt ip1.vals 0 }
              else some t1
          | (ppid, pos) :: _ =>
            match t1.pages.get? ppid with
            | some (.internal pp) =>
                if pos ≠ 0 then
                  let sibPid := readAt pp.vals (pos - 1)
                  match t1.pages.get? sibPid with
                  | some (.internal sib) =>
                      let sib1 := mergeInternalInto sib ip1 (readAt pp.keys (pos - 1))
                      let t2 := t1.setPage sibPid (.internal sib1)
                      if sib1.size ≤ sib1.max_size then
                        removeInternalUp (t2.delPage pid) rest
                      else
                        let half : Int := sib1.size / 2
                        let n : Int := sib1.size - half
                        let ip2 : InternalPage := { ip1 with
                          size := n
                          keys := blitFromLoop ip1.keys sib1.keys half n
                          vals := blitFromLoop ip1.vals sib1.vals half n }
                        let t3 := t2.setPage pid (.internal ip2)
                        let t4 := t3.setPage sibPid (.internal { sib1 with size := half })
                        let pp1 : InternalPage := { pp with
                          keys := writeAt pp.keys pos.toNat (readAt ip2.keys 0) }
                        some (t4.setPage ppid (.internal pp1))
                  | _ => none
                else removeInternalUp t1 rest
            | _ => none
    | _ => none

/-- Remove phase 2, leaf level (the loop's first iteration): erase the key,
then handle under-occupancy — root shrink-to-empty, merge into the left
sibling with `continue`, redistribute, or the leftmost-child (`pos = 0`)
fall-through to the parent iteration. -/
def removeLeafStep (t : Tree) : List (Int × Int) → Option Tree
  | [] => some t
  | (pid, slot) :: rest =>
    match t.pages.get? pid with
    | some (.leaf lp) =>
        let lp1 := leafEraseAt lp slot
        let t1 := t.setPage pid (.leaf lp1)
        if lp1.size ≥ lp1.minSize then some t1
        else
          match rest with
          | [] =>
              if lp1.size = 0 then
                some { t1.delPage pid with root_page_id := INVALID_PAGE_ID }
              else some t1
          | (ppid, pos) :: _ =>
            match t1.pages.get? ppid with
            | some (.internal pp) =>
                if pos ≠ 0 then
                  let sibPid := readAt pp.vals (pos - 1)
                  match t1.pages.get? sibPid with
                  | some (.leaf sib) =>
                      let sib1 := mergeLeafInto sib lp1
                      let t2 := t1.setPage sibPid (.leaf sib1)
                      if sib1.size ≤ sib1.max_size then
                        let t3 := t2.setPage sibPid
                          (.leaf { sib1 with next_page_id := lp1.next_page_id })
                        removeInternalUp (t3.delPage pid) rest
                      else
                        let half : Int := sib1.size / 2
                        let n : Int := sib1.size - half
                        let lp2 : LeafPage := { lp1 with
                          size := n
                          keys := blitFromLoop lp1.keys sib1.keys half n
                          vals := blitFromLoop lp1.vals sib1.vals half n }
                        let t3 := t2.setPage pid (.leaf lp2)
                        let t4 := t3.setPage sibPid (.leaf { sib1 with size := half })
                        let pp1 : InternalPage := { pp with
                          keys := writeAt pp.keys pos.toNat (readAt lp2.keys 0) }
                        some (t4.setPage ppid (.internal pp1))
                  | _ => none
                else removeInternalUp t1 rest
            | _ => none
    | _ => none

/-- `Remove(key)`: no-op on an empty tree or an absent key; otherwise run
the bottom-up deletion along the recorded road. -/
def Remove (t : Tree) (k : Int) : Option Tree :=
  if t.root_page_id = INVALID_PAGE_ID then some t
  else
    match buildRoadR t k (t.pages.length + 1) t.root_page_id with
    | none => none
    | some (roadUp, leafPid, lp) =>
        let slot := BinaryFindLeaf lp k
        if slot = -1 ∨ comparator (readAt lp.keys slot) k ≠ 0 then some t
        else removeLeafStep t ((leafPid, slot) :: roadUp.reverse)

/-- Run a sequence of removals (the `RemoveFromFile` driver). -/
def removeList (t : Tree) : List Int → Option Tree
  | [] => some t
  | k :: rest =>
      match Remove t k with
      | none => none
      | some t' => removeList t' rest

/-- The iterator handle: `(page id, slot)`, with `(-1, -1)` as `End()`. -/
structure Iter where
  page_id : Int
  slot : Int
deriving Repr, DecidableEq

/-- `End()`. -/
def EndIter : Iter := { page_id := -1, slot := -1 }

/-- The descent of `Begin(key)`: route with `BinaryFind`, returning
`some none` for the (dead) early-`End()` branch, `some (some _)` for the
reached leaf, `none` when stuck. -/
def beginDescend (t : Tree) (k : Int) : Nat → Int → Option (Option (Int × LeafPage))
  | 0, _ => none
  | fuel + 1, pid =>
    match t.pages.get? pid with
    | some (.leaf lp) => some (some (pid, lp))
    | some (.internal ip) =>
        let slot := BinaryFindInternal ip k
        if slot = -1 then some none
        else beginDescend t k fuel (readAt ip.vals slot)
    | none => none

/-- `Begin(key)`: on the reached leaf take `BinaryFind`'s slot when it is
not `-1`, else `End()`. -/
def BeginKey (t : Tree) (k : Int) : Option Iter :=
  if t.root_page_id = INVALID_PAGE_ID then some EndIter
  else
    match beginDescend t k (t.pages.length + 1) t.root_page_id with
    | none => none
    | some none => some EndIter
    | some (some (pid, lp)) =>
        let slot := BinaryFindLeaf lp k
        if slot ≠ -1 then some { page_id := pid, slot := slot }
        else some EndIter

/-! ### Concrete scenario states

Small trees built through the API (or written out page-by-page), used to
evaluate the operations at explicit inputs. -/

/-- Ascending inserts 1..5 with `leaf_max = internal_max = 4`: produces
leaves `{1,2}` (page 1) and `{3,4,5}` (page 2) under the internal root
(page 3), as in spec §8 scenario 2. -/
def exampleTree5 : Option Tree :=
  insertList (newTree 4 4) [(1, 1), (2, 2), (3, 3), (4, 4), (5, 5)]

/-- The first five inserts of the `exampleTreeSplitLow` history. -/
def exampleBase50 : Option Tree :=
  insertList (newTree 4 4) [(10, 10), (20, 20), (30, 30), (40, 40), (50, 50)]

/-- Inserts 10,20,30,40,50 then 5,6 — the state one insert before the
low-key leaf split. -/
def exampleTreePreSplit : Option Tree :=
  insertList (newTree 4 4)
    [(10, 10), (20, 20), (30, 30), (40, 40), (50, 50), (5, 5), (6, 6)]

/-- One more insert (key 7): the left leaf splits and the carry `(7, new)`
is placed at slot 0 of the root, in front of the routing placeholder. -/
def exampleTreeSplitLow : Option Tree :=
  insertList (newTree 4 4)
    [(10, 10), (20, 20), (30, 30), (40, 40), (50, 50), (5, 5), (6, 6), (7, 7)]

/-- Two keys in a single root leaf. -/
def exampleTree13 : Option Tree :=
  insertList (newTree 4 4) [(1, 1), (3, 3)]

/-- A leaf page literal (values mirror the keys). -/
def mkLeaf (ks : List Int) (nxt : Int) : Page :=
  .leaf { keys := ks, vals := ks, size := ks.length, max_size := 2
          next_page_id := nxt }

/-- An internal page literal. -/
def mkInternal (ks vs : List Int) : Page :=
  .internal { keys := ks, vals := vs, size := ks.length, max_size := 4 }

/-- A height-3 tree with `leaf_max = 2`, `internal_max = 4`: root (page 7)
over internals `A` (page 5, children leaves 1,2) and `B` (page 6, children
leaves 3,4); every invariant of spec §3 holds.  Removing key 30 underflows
leaf 4, merges it away, underflows `B`, and so exercises the
internal-level merge of `B` into `A`. -/
def exampleTreeDeep : Tree :=
  { pages := [(1, mkLeaf [5] 2), (2, mkLeaf [10] 3), (3, mkLeaf [20] 4),
              (4, mkLeaf [30] (-1)),
              (5, mkInternal [5, 10] [1, 2]), (6, mkInternal [20, 30] [3, 4]),
              (7, mkInternal [5, 20] [5, 6])]
    next_pid := 8, root_page_id := 7, leaf_max_size := 2, internal_max_size := 4 }


/-- A sorted leaf page used to instantiate the search lemmas. -/
def lpEx : LeafPage :=
  { keys := [1, 3, 5], vals := [1, 3, 5], size := 3, max_size := 4
    next_page_id := -1 }

/-- A sorted internal page used to instantiate the search lemmas. -/
def ipEx : InternalPage :=
  { keys := [0, 10, 20], vals := [7, 8, 9], size := 3, max_size := 4 }

/-- The concrete value of `exampleTree5` (leaves `{1,2}`, `{3,4,5}`, root
page 3). -/
def tree5V : Tree := exampleTree5.getD (newTree 4 4)

/-- The concrete value of `exampleTree13`. -/
def tree13V : Tree := exampleTree13.getD (newTree 4 4)

/-- The state of `Remove exampleTreeDeep 5` after its leaf-level step: the
leftmost leaf (page 1) was emptied and, since it is its parent's slot-0
child, control fell through to the parent level with no other page
touched. -/
def deepMid : Tree :=
  exampleTreeDeep.setPage 1
    (.leaf (leafEraseAt
      { keys := [5], vals := [5], size := 1, max_size := 2, next_page_id := 2 } 0))

/-- An over-full leaf (size `5 = leaf_max + 1`), as produced by the entry
insertion of Insert phase 2 just before a split. -/
def lpFull : LeafPage :=
  { keys := [1, 2, 3, 4, 5], vals := [1, 2, 3, 4, 5], size := 5, max_size := 4
    next_page_id := -1 }

/-- A one-page tree holding `lpFull`, input to the leaf split. -/
def treeW : Tree :=
  { pages := [(1, .leaf lpFull)], next_pid := 2, root_page_id := 1
    leaf_max_size := 4, internal_max_size := 4 }

/-- An over-full internal node (size `5 = internal_max + 1`). -/
def ipFull : InternalPage :=
  { keys := [1, 2, 3, 4, 5], vals := [11, 12, 13, 14, 15], size := 5
    max_size := 4 }

/-- A one-page tree holding `ipFull`, input to the internal split. -/
def treeWI : Tree :=
  { pages := [(1, .internal ipFull)], next_pid := 2, root_page_id := 1
    leaf_max_size := 4, internal_max_size := 4 }


/-- The root leaf of `tree13V`. -/
def lp13 : LeafPage :=
  { keys := [1, 3], vals := [1, 3], size := 2, max_size := 4, next_page_id := -1 }

/-! ### Helper lemmas: comparator, backing arrays, store -/

theorem comparator_eq_one_iff (a b : Int) : comparator a b = 1 ↔ b < a := by
  unfold comparator; split_ifs <;> simp <;> omega

theorem comparator_ne_one_iff (a b : Int) : comparator a b ≠ 1 ↔ a ≤ b := by
  unfold comparator; split_ifs <;> simp <;> omega

theorem comparator_eq_zero_iff (a b : Int) : comparator a b = 0 ↔ a = b := by
  unfold comparator; split_ifs <;> simp <;> omega

theorem readAt_writeAt_self (a : List Int) (i : Nat) (x : Int) :
    readAt (writeAt a i x) (i : Int) = x := by
  unfold readAt writeAt
  have hi : ((i : Int)).toNat = i := by omega
  rw [hi]
  split
  · next h => rw [List.getD_eq_getElem _ _ (by simpa using h)]; simp [List.getElem_set]
  · next h =>
      have hlen : (a ++ List.replicate (i - a.length) (0 : Int)).length = i := by
        simp; omega
      rw [List.getD_append_right _ _ _ _ (by omega)]
      simp [hlen]

theorem readAt_writeAt_ne (a : List Int) (i : Nat) (x : Int) (j : Int)
    (h : j.toNat ≠ i) : readAt (writeAt a i x) j = readAt a j := by
  unfold readAt writeAt
  split
  · next hil =>
      rcases Nat.lt_or_ge j.toNat a.length with hj | hj
      · rw [List.getD_eq_getElem _ _ (by simpa using hj),
          List.getD_eq_getElem _ _ hj]
        simp only [List.getElem_set]
        exact if_neg (fun hij => h hij.symm)
      · rw [List.getD_eq_default _ _ (by simpa using hj),
          List.getD_eq_default _ _ hj]
  · next hil =>
      have hlen : (a ++ List.replicate (i - a.length) (0 : Int)).length = i := by
        simp; omega
      rcases Nat.lt_or_ge j.toNat a.length with hj | hj
      · rw [List.getD_append _ _ _ _ (by rw [hlen]; omega),
          List.getD_append _ _ _ _ hj]
      · rw [List.getD_eq_default _ _ hj]
        rcases Nat.lt_or_ge j.toNat i with hji | hji
        · rw [List.getD_append _ _ _ _ (by rw [hlen]; omega),
            List.getD_append_right _ _ _ _ hj]
          rw [List.getD_eq_getElem _ _ (by simp; omega)]
          simp [List.getElem_replicate]
        · rw [List.getD_eq_default _ _ (by simp; omega)]

theorem readAt_blitAux (src : List Int) (lo : Int) :
    ∀ (N : Nat) (dst : List Int) (m : Nat), m < N →
      readAt ((List.range N).foldl
          (fun acc t => writeAt acc t (readAt src (lo + t))) dst) (m : Int)
        = readAt src (lo + m) := by
  intro N
  induction N with
  | zero => intro dst m hm; omega
  | succ N ih =>
      intro dst m hm
      rw [List.range_succ, List.foldl_append]
      simp only [List.foldl_cons, List.foldl_nil]
      rcases Nat.lt_or_ge m N with hmN | hmN
      · rw [readAt_writeAt_ne _ _ _ _ (by omega)]
        exact ih dst m hmN
      · have hmN' : m = N := by omega
        subst hmN'
        exact readAt_writeAt_self _ _ _

theorem readAt_blitFromLoop (dst src : List Int) (lo n : Int) (m : Nat)
    (hm : (m : Int) < n) :
    readAt (blitFromLoop dst src lo n) (m : Int) = readAt src (lo + m) := by
  unfold blitFromLoop
  exact readAt_blitAux src lo n.toNat dst m (by omega)


theorem Store.get?_set_self (s : Store) (pid : Int) (pg : Page) :
    (s.set pid pg).get? pid = some pg := by
  induction s with
  | nil => simp [Store.set, Store.get?]
  | cons hd tl ih =>
      obtain ⟨q, r⟩ := hd
      by_cases h : q = pid
      · simp [Store.set, Store.get?, h]
      · simp [Store.set, Store.get?, h, ih]

theorem Store.get?_set_ne (s : Store) (pid : Int) (pg : Page) (q : Int)
    (h : q ≠ pid) : (s.set pid pg).get? q = s.get? q := by
  induction s with
  | nil => simp [Store.set, Store.get?, Ne.symm h]
  | cons hd tl ih =>
      obtain ⟨q', r⟩ := hd
      by_cases h' : q' = pid
      · subst h'
        simp [Store.set, Store.get?, Ne.symm h]
      · simp only [Store.set, if_neg h', Store.get?]
        by_cases h'' : q' = q <;> simp [h'', ih]

theorem Store.get?_del_ne (s : Store) (pid : Int) (q : Int)
    (h : q ≠ pid) : (s.del pid).get? q = s.get? q := by
  induction s with
  | nil => simp [Store.del, Store.get?]
  | cons hd tl ih =>
      obtain ⟨q', r⟩ := hd
      by_cases h' : q' = pid
      · subst h'
        simp [Store.del, Store.get?, Ne.symm h]
      · simp only [Store.del, if_neg h', Store.get?]
        by_cases h'' : q' = q <;> simp [h'', ih]

theorem sorted_of_pairwise (keys : List Int) (size : Int)
    (hlen : size.toNat ≤ keys.length)
    (hp : (keys.take size.toNat).Pairwise (· < ·)) :
    ∀ i j : Int, 0 ≤ i → i < j → j < size → readAt keys i < readAt keys j := by
  intro i j hi hij hj
  have h1 : i.toNat < j.toNat := by omega
  have h2 : j.toNat < size.toNat := by omega
  unfold readAt
  rw [List.getD_eq_getElem _ _ (by omega), List.getD_eq_getElem _ _ (by omega)]
  have := List.pairwise_iff_getElem.mp hp i.toNat j.toNat
    (by simp [List.length_take]; omega) (by simp [List.length_take]; omega) h1
  simpa [List.getElem_take] using this

theorem bfLoop_correct (keys : List Int) (k size : Int)
    (hs : ∀ i j : Int, 0 ≤ i → i < j → j < size → readAt keys i < readAt keys j) :
    ∀ (fuel : Nat) (l r : Int), 0 ≤ l → l ≤ r → r < size → (r - l).toNat < fuel →
      (∀ i : Int, r < i → i < size → k < readAt keys i) →
      l ≤ bfLoop keys k fuel l r ∧ bfLoop keys k fuel l r ≤ r ∧
        (∀ i : Int, bfLoop keys k fuel l r < i → i < size → k < readAt keys i) ∧
        (readAt keys (bfLoop keys k fuel l r) ≤ k ∨ bfLoop keys k fuel l r = l) := by
  intro fuel
  induction fuel with
  | zero => intro l r _ _ _ hf _; omega
  | succ fuel ih =>
      intro l r hl hlr hr hf htail
      rw [bfLoop]
      by_cases hcond : l < r
      · rw [if_pos hcond]
        simp only
        set mid := (l + r + 1) / 2 with hmid
        have hmb : l < mid ∧ mid ≤ r := by omega
        by_cases hc : comparator (readAt keys mid) k ≠ 1
        · rw [if_pos hc]
          have hle : readAt keys mid ≤ k := (comparator_ne_one_iff _ _).mp hc
          have hrec := ih mid r (by omega) (by omega) hr (by omega) htail
          refine ⟨by omega, hrec.2.1, hrec.2.2.1, ?_⟩
          rcases hrec.2.2.2 with h | h
          · exact Or.inl h
          · exact Or.inl (by rw [h]; exact hle)
        · rw [if_neg hc]
          push_neg at hc
          have hgt : k < readAt keys mid := (comparator_eq_one_iff _ _).mp hc
          have htail2 : ∀ i : Int, mid - 1 < i → i < size → k < readAt keys i := by
            intro i h1 h2
            rcases eq_or_lt_of_le (show mid ≤ i by omega) with h3 | h3
            · exact h3 ▸ hgt
            · exact lt_trans hgt (hs mid i (by omega) h3 h2)
          have hrec := ih l (mid - 1) hl (by omega) (by omega) (by omega) htail2
          exact ⟨hrec.1, by omega, hrec.2.2.1, hrec.2.2.2⟩
      · rw [if_neg hcond]
        have hlr2 : l = r := by omega
        exact ⟨hlr, le_refl _, htail, Or.inr hlr2.symm⟩

theorem binaryFindLeaf_spec (p : LeafPage) (k : Int)
    (hsz : 0 ≤ p.size) (hlen : p.size.toNat ≤ p.keys.length)
    (hp : (p.keys.take p.size.toNat).Pairwise (· < ·)) :
    (BinaryFindLeaf p k = -1 ∧
      ∀ i : Int, 0 ≤ i → i < p.size → k < readAt p.keys i) ∨
    (0 ≤ BinaryFindLeaf p k ∧ BinaryFindLeaf p k < p.size ∧
      readAt p.keys (BinaryFindLeaf p k) ≤ k ∧
      ∀ i : Int, BinaryFindLeaf p k < i → i < p.size → k < readAt p.keys i) := by
  have hs := sorted_of_pairwise p.keys p.size hlen hp
  unfold BinaryFindLeaf
  rcases eq_or_lt_of_le hsz with h0 | h0
  · left
    have hz : p.size = 0 := h0.symm
    rw [hz]
    norm_num [bfLoop]
    intro i h1 h2
    omega
  · have hloop := bfLoop_correct p.keys k p.size hs p.size.toNat 0 (p.size - 1)
      (le_refl 0) (by omega) (by omega) (by omega) (by intro i h1 h2; omega)
    simp only
    set rr := bfLoop p.keys k p.size.toNat 0 (p.size - 1) with hrr
    obtain ⟨ha, hb, hc, hd⟩ := hloop
    by_cases hfix : 0 ≤ rr ∧ comparator (readAt p.keys rr) k = 1
    · rw [if_pos hfix]
      left
      have hgt : k < readAt p.keys rr := (comparator_eq_one_iff _ _).mp hfix.2
      have hrr0 : rr = 0 := by
        rcases hd with h | h
        · exact absurd h (not_le.mpr hgt)
        · exact h
      refine ⟨rfl, fun i h1 h2 => ?_⟩
      rcases eq_or_lt_of_le h1 with h3 | h3
      · rw [← h3, ← hrr0]; exact hgt
      · exact hc i (by omega) h2
    · rw [if_neg hfix]
      right
      have hle : readAt p.keys rr ≤ k := by
        rcases not_and_or.mp hfix with h | h
        · exact absurd ha h
        · exact (comparator_ne_one_iff _ _).mp h
      exact ⟨ha, by omega, hle, hc⟩

theorem binaryFindInternal_spec (p : InternalPage) (k : Int)
    (hsz : 0 ≤ p.size) (hlen : p.size.toNat ≤ p.keys.length)
    (hp : (p.keys.take p.size.toNat).Pairwise (· < ·)) :
    (BinaryFindInternal p k = 0 ∧
      ∀ i : Int, 1 ≤ i → i < p.size → k < readAt p.keys i) ∨
    (1 ≤ BinaryFindInternal p k ∧ BinaryFindInternal p k < p.size ∧
      readAt p.keys (BinaryFindInternal p k) ≤ k ∧
      ∀ i : Int, BinaryFindInternal p k < i → i < p.size → k < readAt p.keys i) := by
  have hs := sorted_of_pairwise p.keys p.size hlen hp
  unfold BinaryFindInternal
  rcases lt_or_ge p.size 2 with hsmall | h2
  · left
    have hz : p.size = 0 ∨ p.size = 1 := by omega
    rcases hz with hz | hz
    · rw [hz]
      norm_num [bfLoop]
      intro i h1 h2
      omega
    · rw [hz]
      constructor
      · have hb : bfLoop p.keys k (1 : Int).toNat 1 (1 - 1) = 0 := by
          norm_num [bfLoop]
        rw [hb]
        simp [ite_self]
      · intro i h1 h2
        omega
  · have hloop := bfLoop_correct p.keys k p.size hs p.size.toNat 1 (p.size - 1)
      (by omega) (by omega) (by omega) (by omega) (by intro i h1 h2; omega)
    simp only
    set rr := bfLoop p.keys k p.size.toNat 1 (p.size - 1) with hrr
    obtain ⟨ha, hb, hc, hd⟩ := hloop
    by_cases hfix : rr = -1 ∨ comparator (readAt p.keys rr) k = 1
    · rw [if_pos hfix]
      left
      have hcmp : comparator (readAt p.keys rr) k = 1 := by
        rcases hfix with h | h
        · omega
        · exact h
      have hgt : k < readAt p.keys rr := (comparator_eq_one_iff _ _).mp hcmp
      have hrr1 : rr = 1 := by
        rcases hd with h | h
        · exact absurd h (not_le.mpr hgt)
        · exact h
      refine ⟨rfl, fun i h1 h2 => ?_⟩
      rcases eq_or_lt_of_le h1 with h3 | h3
      · rw [← h3, ← hrr1]; exact hgt
      · exact hc i (by omega) h2
    · rw [if_neg hfix]
      right
      push_neg at hfix
      have hle : readAt p.keys rr ≤ k := (comparator_ne_one_iff _ _).mp hfix.2
      exact ⟨ha, by omega, hle, hc⟩

/-- C1: the round-trip property fails.  Inserting the key set
`{10,20,30,40,50,5,6,7}` in this order (each insert returning `true`, in
particular `insert(5)`), a later `get(5)` reports the key absent: the
carry of the low-key leaf split was inserted at slot 0 of the root, in
front of the routing placeholder, so routing for 5 descends into the new
right leaf `{7,10,20}` and misses it.  `get(7)` still succeeds, so the
run itself is healthy. -/
theorem C1_roundtrip_fails_at_key5 :
    (exampleBase50.bind (fun t => Insert t 5 5)).map Prod.snd = some true ∧
    exampleTreeSplitLow.bind (fun t => GetValue t 5) = some none ∧
    exampleTreeSplitLow.bind (fun t => GetValue t 7) = some (some 7) := by
  decide

/-! ### Claim C2 -/

/-- C2: inserting `K = {1,2,3,4,5}` (ascending) and then removing all of
`K` in the order `3,4,5,1,2` does not empty the tree: the leaf-merge bug
resurrects the stale key 3 and overwrites key 2, after which the removals
of 5 and 2 miss their keys; the final header still points at page 1. -/
theorem C2_remove_all_leaves_nonempty_tree :
    (exampleTree5.bind (fun t => removeList t [3, 4, 5, 1, 2])).map GetRootPageId
      = some 1 ∧ (1 : Int) ≠ INVALID_PAGE_ID := by
  decide

/-! ### Claim C5 -/

/-- C5: the leaf merge does not append after the sibling's entries.  In the
tree with leaves `{1,2}` (page 1) and `{3,4,5}` (page 2), removing 3 and
then 4 underflows page 2 (one entry, `{5}`) and merges it into page 1; the
source writes at offset `leaf->GetSize() = 1` instead of the sibling's
size 2, so page 1 ends with entries `1,5,3` — entry 2 is overwritten and
the stale slot `3` is exposed — instead of the claimed `1,2,5`. -/
theorem C5_leaf_merge_overwrites_sibling :
    (exampleTree5.bind (fun t => removeList t [3, 4])).bind
        (fun t => t.pages.get? 1)
      = some (.leaf { keys := [1, 5, 3, 4, 5], vals := [1, 5, 3, 4, 5]
                      size := 3, max_size := 4, next_page_id := -1 }) := by
  decide

/-! ### Claim C6 -/

/-- C6: the internal merge does not keep each child exactly once.  On
`exampleTreeDeep`, removing key 30 frees leaf 4, underflows internal `B`
(page 6, left with sole child 3), and merges `B` into `A` (page 5): the
source appends `(parent key at pos−1, B's child 0)` — the separator at
`pos−1 = 0`, key 5, not the claimed `parent_key_at_pos = 20` — and then
copies all of `B`'s slots starting again from slot 0, so child page 3
appears twice; the root then collapses to `A`. -/
theorem C6_internal_merge_duplicates_child :
    (Remove exampleTreeDeep 30).map
        (fun t => (GetRootPageId t, t.pages.get? 5))
      = some (5, some (.internal { keys := [5, 10, 5, 20], vals := [1, 2, 3, 3]
                                   size := 4, max_size := 4 })) := by
  decide

/-! ### Claim C10 -/

/-- C10: an insert of a fresh key is not frame-preserving.  In
`exampleTreePreSplit`, key 5 is present and key 7 absent; `insert(7)`
returns `true` but afterwards `get(5)` reports absent — the leaf split's
carry landed at slot 0 of the root and broke routing for 5. -/
theorem C10_insert_disturbs_other_key :
    exampleTreePreSplit.bind (fun t => GetValue t 5) = some (some 5) ∧
    exampleTreePreSplit.bind (fun t => GetValue t 7) = some none ∧
    (exampleTreePreSplit.bind (fun t => Insert t 7 7)).map Prod.snd = some true ∧
    (exampleTreePreSplit.bind (fun t => Insert t 7 7)).bind
        (fun p => GetValue p.1 5) = some none := by
  decide

/-! ### Claim C3 — counterexample -/

/-- C3 counterexample: after `insert(5) = true` (sixth operation of the
`exampleTreeSplitLow` history) and with no remove anywhere, a further
`insert(5)` returns `true` again, because the intervening `insert(7)`
made key 5 unreachable for the routing descent. -/
theorem C3_reinsert_true_without_remove :
    (exampleBase50.bind (fun t => Insert t 5 5)).map Prod.snd = some true ∧
    (exampleTreeSplitLow.bind (fun t => Insert t 5 99)).map Prod.snd
      = some true := by
  decide

/-! ### Claim C4 — counterexample -/

/-- C4 counterexample: removing key 1 from the tree with leaves `{1,2}`,
`{3,4,5}` under root page 3 underflows the leftmost leaf (parent slot 0).
The operation does not return leaving the rest unchanged: the parent
(page 3) loses its slot for the child, collapses, and is freed — the
header now names page 2 — while the under-full leaf (page 1, entry `{2}`)
stays allocated but detached, so `get(2)` reports absent. -/
theorem C4_leftmost_underflow_modifies_parent :
    (exampleTree5.bind (fun t => Remove t 1)).map
        (fun t => (t.pages.get? 3, GetRootPageId t, t.pages.get? 1, GetValue t 2))
      = some (none, 2,
              some (.leaf { keys := [2, 2, 3, 4, 5], vals := [2, 2, 3, 4, 5]
                            size := 1, max_size := 4, next_page_id := 2 }),
              some none) := by
  decide

/-! ### Claim C7 — counterexample -/

/-- C7 counterexample: on the single-leaf tree `{1,3}` (page 1),
`begin(0)` returns `End()` although slot 0 (key 1 ≥ 0) exists, and
`begin(2)` positions at slot 0 (key 1) rather than at the first slot with
key ≥ 2 (slot 1, key 3): the source reuses the "last slot ≤ key" binary
search. -/
theorem C7_begin_not_lower_bound :
    exampleTree13.bind (fun t => BeginKey t 0) = some EndIter ∧
    exampleTree13.bind (fun t => GetValue t 1) = some (some 1) ∧
    exampleTree13.bind (fun t => BeginKey t 2)
      = some { page_id := 1, slot := 0 } := by
  decide

/-! ### Claim C8 — counterexample -/

/-- C8 counterexample: inserting 1..5 overfills the root leaf to
`size = 5 = leaf_max + 1`; the claim says the left leaf keeps
`⌊(5+1)/2⌋ = 3` entries, but the source keeps `half = ⌊5/2⌋ = 2` on the
left and moves 3 to the new right leaf. -/
theorem C8_leaf_split_left_half_size :
    exampleTree5.bind (fun t => (t.pages.get? 1).map
        (fun pg => match pg with | .leaf lp => lp.size | .internal ip => ip.size))
      = some 2 ∧
    exampleTree5.bind (fun t => (t.pages.get? 2).map
        (fun pg => match pg with | .leaf lp => lp.size | .internal ip => ip.size))
      = some 3 ∧
    (2 : Int) ≠ (5 + 1) / 2 := by
  decide


/-! ### Claim C9 -/

/-- C9: on a node whose first `size` key slots are written and strictly
increasing, the leaf `BinaryFind` returns the largest slot `i` with
`key[i] ≤ key` and `-1` when every key (if any) exceeds `key` — including
`size = 0`; the internal `BinaryFind` returns the largest slot `i ≥ 1`
with `key[i] ≤ key` and `0` when no such slot exists. -/
theorem C9_binaryfind_returns_last_le (lp : LeafPage) (ip : InternalPage) (k : Int)
    (hl0 : 0 ≤ lp.size) (hl1 : lp.size.toNat ≤ lp.keys.length)
    (hl2 : (lp.keys.take lp.size.toNat).Pairwise (· < ·))
    (hi0 : 0 ≤ ip.size) (hi1 : ip.size.toNat ≤ ip.keys.length)
    (hi2 : (ip.keys.take ip.size.toNat).Pairwise (· < ·)) :
    ((BinaryFindLeaf lp k = -1 ∧
        ∀ i : Int, 0 ≤ i → i < lp.size → k < readAt lp.keys i) ∨
      (0 ≤ BinaryFindLeaf lp k ∧ BinaryFindLeaf lp k < lp.size ∧
        readAt lp.keys (BinaryFindLeaf lp k) ≤ k ∧
        ∀ i : Int, BinaryFindLeaf lp k < i → i < lp.size → k < readAt lp.keys i)) ∧
    ((BinaryFindInternal ip k = 0 ∧
        ∀ i : Int, 1 ≤ i → i < ip.size → k < readAt ip.keys i) ∨
      (1 ≤ BinaryFindInternal ip k ∧ BinaryFindInternal ip k < ip.size ∧
        readAt ip.keys (BinaryFindInternal ip k) ≤ k ∧
        ∀ i : Int, BinaryFindInternal ip k < i → i < ip.size → k < readAt ip.keys i)) :=
  ⟨binaryFindLeaf_spec lp k hl0 hl1 hl2,
   binaryFindInternal_spec ip k hi0 hi1 hi2⟩

/-- Witness for C9 at the concrete pages `lpEx`, `ipEx` and key 4. -/
theorem C9_binaryfind_witness :
    ((0 : Int) ≤ lpEx.size ∧ lpEx.size.toNat ≤ lpEx.keys.length ∧
      (lpEx.keys.take lpEx.size.toNat).Pairwise (· < ·) ∧
      (0 : Int) ≤ ipEx.size ∧ ipEx.size.toNat ≤ ipEx.keys.length ∧
      (ipEx.keys.take ipEx.size.toNat).Pairwise (· < ·)) ∧
    (((BinaryFindLeaf lpEx 4 = -1 ∧
        ∀ i : Int, 0 ≤ i → i < lpEx.size → 4 < readAt lpEx.keys i) ∨
      (0 ≤ BinaryFindLeaf lpEx 4 ∧ BinaryFindLeaf lpEx 4 < lpEx.size ∧
        readAt lpEx.keys (BinaryFindLeaf lpEx 4) ≤ 4 ∧
        ∀ i : Int, BinaryFindLeaf lpEx 4 < i → i < lpEx.size →
          4 < readAt lpEx.keys i)) ∧
    ((BinaryFindInternal ipEx 4 = 0 ∧
        ∀ i : Int, 1 ≤ i → i < ipEx.size → 4 < readAt ipEx.keys i) ∨
      (1 ≤ BinaryFindInternal ipEx 4 ∧ BinaryFindInternal ipEx 4 < ipEx.size ∧
        readAt ipEx.keys (BinaryFindInternal ipEx 4) ≤ 4 ∧
        ∀ i : Int, BinaryFindInternal ipEx 4 < i → i < ipEx.size →
          4 < readAt ipEx.keys i))) :=
  ⟨⟨by decide, by decide, by decide, by decide, by decide, by decide⟩,
   C9_binaryfind_returns_last_le lpEx ipEx 4 (by decide) (by decide) (by decide)
     (by decide) (by decide) (by decide)⟩


/-- C7 (amended): on a tree whose `Begin(key)` descent reaches a leaf with
strictly increasing keys, the cursor is positioned at the LAST leaf slot
whose key is `≤ key`; when every key on the reached leaf exceeds `key`
(so no such slot exists), `End()` is returned. -/
theorem C7_begin_positions_at_last_le (t : Tree) (k pid : Int) (lp : LeafPage)
    (hroot : t.root_page_id ≠ INVALID_PAGE_ID)
    (hdesc : beginDescend t k (t.pages.length + 1) t.root_page_id
      = some (some (pid, lp)))
    (hsz : 0 ≤ lp.size) (hlen : lp.size.toNat ≤ lp.keys.length)
    (hp : (lp.keys.take lp.size.toNat).Pairwise (· < ·)) :
    (BinaryFindLeaf lp k = -1 →
      BeginKey t k = some EndIter ∧
        ∀ i : Int, 0 ≤ i → i < lp.size → k < readAt lp.keys i) ∧
    (BinaryFindLeaf lp k ≠ -1 →
      BeginKey t k = some { page_id := pid, slot := BinaryFindLeaf lp k } ∧
        0 ≤ BinaryFindLeaf lp k ∧ BinaryFindLeaf lp k < lp.size ∧
        readAt lp.keys (BinaryFindLeaf lp k) ≤ k ∧
        ∀ i : Int, BinaryFindLeaf lp k < i → i < lp.size →
          k < readAt lp.keys i) := by
  have hspec := binaryFindLeaf_spec lp k hsz hlen hp
  have hBK : BeginKey t k =
      (if BinaryFindLeaf lp k ≠ -1 then
        some { page_id := pid, slot := BinaryFindLeaf lp k }
      else some EndIter) := by
    unfold BeginKey
    rw [if_neg hroot, hdesc]
  constructor
  · intro hm1
    refine ⟨by rw [hBK]; simp [hm1], ?_⟩
    rcases hspec with ⟨_, h⟩ | ⟨h0, _, _, _⟩
    · exact h
    · omega
  · intro hm1
    refine ⟨by rw [hBK]; simp [hm1], ?_⟩
    rcases hspec with ⟨h, _⟩ | hr
    · exact absurd h hm1
    · exact hr

/-- Witness for the amended C7 on the single-leaf tree `{1,3}` with search
key 2 (the cursor lands on slot 0, key 1 — the last slot `≤ 2`). -/
theorem C7_begin_witness :
    (tree13V.root_page_id ≠ INVALID_PAGE_ID ∧
      beginDescend tree13V 2 (tree13V.pages.length + 1) tree13V.root_page_id
        = some (some (1, lp13)) ∧
      (lp13.keys.take lp13.size.toNat).Pairwise (· < ·)) ∧
    ((BinaryFindLeaf lp13 2 = -1 →
        BeginKey tree13V 2 = some EndIter ∧
          ∀ i : Int, 0 ≤ i → i < lp13.size → 2 < readAt lp13.keys i) ∧
      (BinaryFindLeaf lp13 2 ≠ -1 →
        BeginKey tree13V 2 = some { page_id := 1, slot := BinaryFindLeaf lp13 2 } ∧
          0 ≤ BinaryFindLeaf lp13 2 ∧ BinaryFindLeaf lp13 2 < lp13.size ∧
          readAt lp13.keys (BinaryFindLeaf lp13 2) ≤ 2 ∧
          ∀ i : Int, BinaryFindLeaf lp13 2 < i → i < lp13.size →
            2 < readAt lp13.keys i)) :=
  ⟨⟨by decide, by decide, by decide⟩,
   C7_begin_positions_at_last_le tree13V 2 1 lp13 (by decide) (by decide)
     (by decide) (by decide) (by decide)⟩


/-- The road-recording descent of Insert phase 1 visits exactly the pages
of `GetValue`'s descent and ends on the same leaf. -/
theorem buildRoad_findLeafG (t : Tree) (k : Int) :
    ∀ (fuel : Nat) (pid : Int),
      (buildRoad t k fuel pid).map (fun x => (x.2.1, x.2.2))
        = findLeafG t k fuel pid := by
  intro fuel
  induction fuel with
  | zero => intro pid; rfl
  | succ fuel ih =>
      intro pid
      rw [buildRoad, findLeafG]
      cases hpg : t.pages.get? pid with
      | none => rfl
      | some pg =>
          cases pg with
          | leaf lp => rfl
          | internal ip =>
              dsimp only
              rw [← ih (readAt ip.vals (BinaryFindInternal ip k))]
              cases hbr : buildRoad t k fuel (readAt ip.vals (BinaryFindInternal ip k)) with
              | none => rfl
              | some x =>
                  obtain ⟨road, q, lp⟩ := x
                  rfl

/-- C3 (amended): whenever `get(k)` finds a value, `insert(k, v)` returns
`false` and leaves the whole state untouched — so a re-insert of `k` is
rejected exactly as long as `k` is still reachable; the counterexample
`C3_reinsert_true_without_remove` shows reachability can be lost with no
intervening `remove(k)`. -/
theorem C3_present_insert_rejected (t : Tree) (k v w : Int)
    (h : GetValue t k = some (some w)) :
    Insert t k v = some (t, false) := by
  unfold GetValue at h
  by_cases hroot : t.root_page_id = INVALID_PAGE_ID
  · rw [if_pos hroot] at h
    exact absurd h (by simp)
  · rw [if_neg hroot] at h
    cases hfind : findLeafG t k (t.pages.length + 1) t.root_page_id with
    | none => rw [hfind] at h; exact absurd h (by simp)
    | some x =>
        obtain ⟨q, lp⟩ := x
        rw [hfind] at h
        dsimp only at h
        by_cases hcond : BinaryFindLeaf lp k ≠ -1 ∧
            comparator (readAt lp.keys (BinaryFindLeaf lp k)) k = 0
        · unfold Insert
          rw [if_neg hroot]
          dsimp only
          have hag := buildRoad_findLeafG t k (t.pages.length + 1) t.root_page_id
          rw [hfind] at hag
          cases hbr : buildRoad t k (t.pages.length + 1) t.root_page_id with
          | none => rw [hbr] at hag; exact absurd hag (by simp)
          | some y =>
              obtain ⟨road, q2, lp2⟩ := y
              rw [hbr] at hag
              have hag2 : ((q2, lp2) : Int × LeafPage) = (q, lp) := by
                simpa using hag
              have hq : q2 = q := congrArg Prod.fst hag2
              have hlp : lp2 = lp := congrArg Prod.snd hag2
              subst hq
              subst hlp
              dsimp only
              rw [if_pos hcond]
        · rw [if_neg hcond] at h
          exact absurd h (by simp)

/-- Witness for the amended C3: in the tree with leaves `{1,2}`, `{3,4,5}`
key 3 is reachable, and re-inserting it returns `false` with the state
unchanged. -/
theorem C3_present_insert_witness :
    GetValue tree5V 3 = some (some 3) ∧ Insert tree5V 3 99 = some (tree5V, false) :=
  ⟨by decide, C3_present_insert_rejected tree5V 3 99 3 (by decide)⟩


/-- C4 (amended): when a non-root node that has fallen below its minimum
occupancy is the leftmost child of its parent (recorded parent slot 0),
no sibling is consulted or modified and no merge or redistribution
happens — but the operation does NOT return leaving the rest unchanged:
the loop falls through to the parent's iteration with only the shrunken
node written back (the node is not freed), and there the parent erases
its recorded slot-0 entry, detaching the under-full child.  Stated for
the leaf level and the internal level of the bottom-up loop. -/
theorem C4_leftmost_underflow_continues_upward :
    (∀ (t : Tree) (pid slot ppid : Int) (rest : List (Int × Int))
        (lp : LeafPage) (pp : InternalPage),
      t.pages.get? pid = some (.leaf lp) →
      (leafEraseAt lp slot).size < (leafEraseAt lp slot).minSize →
      (t.setPage pid (.leaf (leafEraseAt lp slot))).pages.get? ppid
        = some (.internal pp) →
      removeLeafStep t ((pid, slot) :: (ppid, 0) :: rest)
          = removeInternalUp (t.setPage pid (.leaf (leafEraseAt lp slot)))
              ((ppid, 0) :: rest) ∧
        (∀ q : Int, q ≠ pid →
          (t.setPage pid (.leaf (leafEraseAt lp slot))).pages.get? q
            = t.pages.get? q) ∧
        (t.setPage pid (.leaf (leafEraseAt lp slot))).pages.get? pid
          = some (.leaf (leafEraseAt lp slot)) ∧
        ((internalEraseAt pp 0).minSize ≤ (internalEraseAt pp 0).size →
          removeLeafStep t ((pid, slot) :: (ppid, 0) :: rest)
            = some ((t.setPage pid (.leaf (leafEraseAt lp slot))).setPage ppid
                (.internal (internalEraseAt pp 0))))) ∧
    (∀ (t : Tree) (pid slot ppid : Int) (rest : List (Int × Int))
        (ip pp : InternalPage),
      t.pages.get? pid = some (.internal ip) →
      (internalEraseAt ip slot).size < (internalEraseAt ip slot).minSize →
      (t.setPage pid (.internal (internalEraseAt ip slot))).pages.get? ppid
        = some (.internal pp) →
      removeInternalUp t ((pid, slot) :: (ppid, 0) :: rest)
          = removeInternalUp (t.setPage pid (.internal (internalEraseAt ip slot)))
              ((ppid, 0) :: rest) ∧
        (∀ q : Int, q ≠ pid →
          (t.setPage pid (.internal (internalEraseAt ip slot))).pages.get? q
            = t.pages.get? q) ∧
        (t.setPage pid (.internal (internalEraseAt ip slot))).pages.get? pid
          = some (.internal (internalEraseAt ip slot))) := by
  constructor
  · intro t pid slot ppid rest lp pp hget hu hpp
    have heq : removeLeafStep t ((pid, slot) :: (ppid, 0) :: rest)
        = removeInternalUp (t.setPage pid (.leaf (leafEraseAt lp slot)))
            ((ppid, 0) :: rest) := by
      rw [removeLeafStep, hget]
      dsimp only
      rw [if_neg (not_le.mpr hu), hpp]
      dsimp only
      simp
    refine ⟨heq, ?_, ?_, ?_⟩
    · intro q hq
      exact Store.get?_set_ne t.pages pid _ q hq
    · exact Store.get?_set_self t.pages pid _
    · intro hok
      rw [heq, removeInternalUp, hpp]
      dsimp only
      rw [if_pos hok]
  · intro t pid slot ppid rest ip pp hget hu hpp
    refine ⟨?_, ?_, ?_⟩
    · rw [removeInternalUp, hget]
      dsimp only
      rw [if_neg (not_le.mpr hu), hpp]
      dsimp only
      simp
    · intro q hq
      exact Store.get?_set_ne t.pages pid _ q hq
    · exact Store.get?_set_self t.pages pid _

/-- Witness for the amended C4 at both levels: the leaf level on the tree
with leaves `{1,2}`, `{3,4,5}` (removing key 1 underflows the leftmost
leaf, page 1), and the internal level on `deepMid` (node `A`, page 5, is
the root's slot-0 child and underflows). -/
theorem C4_leftmost_underflow_witness :
    (tree5V.pages.get? 1
        = some (.leaf { keys := [1, 2, 3, 4, 5], vals := [1, 2, 3, 4, 5]
                        size := 2, max_size := 4, next_page_id := 2 }) ∧
      deepMid.pages.get? 5
        = some (.internal { keys := [5, 10], vals := [1, 2]
                            size := 2, max_size := 4 })) ∧
    (removeLeafStep tree5V ((1, 0) :: (3, 0) :: [])
        = removeInternalUp
            (tree5V.setPage 1 (.leaf (leafEraseAt
              { keys := [1, 2, 3, 4, 5], vals := [1, 2, 3, 4, 5]
                size := 2, max_size := 4, next_page_id := 2 } 0)))
            ((3, 0) :: [])) ∧
    (removeInternalUp deepMid ((5, 0) :: (7, 0) :: [])
        = removeInternalUp
            (deepMid.setPage 5 (.internal (internalEraseAt
              { keys := [5, 10], vals := [1, 2], size := 2, max_size := 4 } 0)))
            ((7, 0) :: [])) :=
  ⟨⟨by decide, by decide⟩,
   (C4_leftmost_underflow_continues_upward.1 tree5V 1 0 3 []
      { keys := [1, 2, 3, 4, 5], vals := [1, 2, 3, 4, 5]
        size := 2, max_size := 4, next_page_id := 2 }
      { keys := [1, 3], vals := [1, 2], size := 2, max_size := 4 }
      (by decide) (by decide) (by decide)).1,
   (C4_leftmost_underflow_continues_upward.2 deepMid 5 0 7 []
      { keys := [5, 10], vals := [1, 2], size := 2, max_size := 4 }
      { keys := [5, 20], vals := [5, 6], size := 2, max_size := 4 }
      (by decide) (by decide) (by decide)).1⟩


/-- C8 (amended): when an insert overfills a node to
`size = max_size + 1` and splits it, the left (original) node retains
`⌊size/2⌋` entries — for leaves as well as internal nodes — and the newly
allocated right sibling receives the remaining `size − ⌊size/2⌋` entries,
with the carry key set to the first key of the new node (the slot-`⌊size/2⌋`
key of the over-full node). -/
theorem C8_split_pivot_floor_half :
    (∀ (t : Tree) (pid : Int) (lp1 : LeafPage),
      pid ≠ t.next_pid →
      lp1.size = lp1.max_size + 1 → 0 ≤ lp1.max_size →
      (splitLeaf t pid lp1).2.2 = t.next_pid ∧
      (splitLeaf t pid lp1).1.pages.get? pid
        = some (.leaf { lp1 with next_page_id := t.next_pid
                                 size := lp1.size / 2 }) ∧
      (∃ np : LeafPage,
        (splitLeaf t pid lp1).1.pages.get? t.next_pid = some (.leaf np) ∧
        np.size = lp1.size - lp1.size / 2 ∧
        (splitLeaf t pid lp1).2.1 = readAt np.keys 0 ∧
        readAt np.keys 0 = readAt lp1.keys (lp1.size / 2))) ∧
    (∀ (t : Tree) (pid : Int) (ip1 : InternalPage),
      pid ≠ t.next_pid →
      ip1.size = ip1.max_size + 1 → 0 ≤ ip1.max_size →
      (splitInternal t pid ip1).2.2 = t.next_pid ∧
      (splitInternal t pid ip1).1.pages.get? pid
        = some (.internal { ip1 with size := ip1.size / 2 }) ∧
      (∃ np : InternalPage,
        (splitInternal t pid ip1).1.pages.get? t.next_pid = some (.internal np) ∧
        np.size = ip1.size - ip1.size / 2 ∧
        (splitInternal t pid ip1).2.1 = readAt np.keys 0 ∧
        readAt np.keys 0 = readAt ip1.keys (ip1.size / 2))) := by
  constructor
  · intro t pid lp1 hne hov hmax
    unfold splitLeaf allocPage Tree.setPage
    dsimp only
    refine ⟨rfl, ?_, ?_⟩
    · rw [Store.get?_set_ne _ _ _ _ hne, Store.get?_set_self]
    · refine ⟨_, Store.get?_set_self _ _ _, rfl, rfl, ?_⟩
      have h0 : (0 : Int) < lp1.size - lp1.size / 2 := by omega
      have := readAt_blitFromLoop (leafInit t.leaf_max_size).keys lp1.keys
        (lp1.size / 2) (lp1.size - lp1.size / 2) 0 (by exact_mod_cast h0)
      simpa using this
  · intro t pid ip1 hne hov hmax
    unfold splitInternal allocPage Tree.setPage
    dsimp only
    refine ⟨rfl, ?_, ?_⟩
    · rw [Store.get?_set_ne _ _ _ _ hne, Store.get?_set_self]
    · refine ⟨_, Store.get?_set_self _ _ _, rfl, rfl, ?_⟩
      have h0 : (0 : Int) < ip1.size - ip1.size / 2 := by omega
      have := readAt_blitFromLoop (internalInit t.internal_max_size).keys ip1.keys
        (ip1.size / 2) (ip1.size - ip1.size / 2) 0 (by exact_mod_cast h0)
      simpa using this

/-- Witness for the amended C8 on an over-full leaf and an over-full
internal node of size `5 = 4 + 1`: the left halves keep `⌊5/2⌋ = 2`
entries, the right siblings get 3, the carry is the slot-2 key. -/
theorem C8_split_pivot_witness :
    (lpFull.size = lpFull.max_size + 1 ∧ ipFull.size = ipFull.max_size + 1) ∧
    ((splitLeaf treeW 1 lpFull).2.2 = treeW.next_pid ∧
      (splitLeaf treeW 1 lpFull).1.pages.get? 1
        = some (.leaf { lpFull with next_page_id := treeW.next_pid
                                    size := lpFull.size / 2 }) ∧
      (∃ np : LeafPage,
        (splitLeaf treeW 1 lpFull).1.pages.get? treeW.next_pid
          = some (.leaf np) ∧
        np.size = lpFull.size - lpFull.size / 2 ∧
        (splitLeaf treeW 1 lpFull).2.1 = readAt np.keys 0 ∧
        readAt np.keys 0 = readAt lpFull.keys (lpFull.size / 2))) ∧
    ((splitInternal treeWI 1 ipFull).2.2 = treeWI.next_pid ∧
      (splitInternal treeWI 1 ipFull).1.pages.get? 1
        = some (.internal { ipFull with size := ipFull.size / 2 }) ∧
      (∃ np : InternalPage,
        (splitInternal treeWI 1 ipFull).1.pages.get? treeWI.next_pid
          = some (.internal np) ∧
        np.size = ipFull.size - ipFull.size / 2 ∧
        (splitInternal treeWI 1 ipFull).2.1 = readAt np.keys 0 ∧
        readAt np.keys 0 = readAt ipFull.keys (ipFull.size / 2))) :=
  ⟨⟨by decide, by decide⟩,
   C8_split_pivot_floor_half.1 treeW 1 lpFull (by decide) (by decide) (by decide),
   C8_split_pivot_floor_half.2 treeWI 1 ipFull (by decide) (by decide) (by decide)⟩

end BT
